import Mathlib

/-!
FarmTech waitlist server (`src/server.js`).

A shallow embedding of the Express application of `src/server.js`:

* the Mongoose schema `waitlistSchema` (lines 30-67) and the model operations
  the handlers call (`findOne`, `save`, `countDocuments`, `aggregate`, `find().sort`),
  over a collection represented as the list of its documents in insertion order;
* the three route handlers and the health check (lines 72-165);
* the rate limiter (lines 16-20) and its mount point (line 21).

Scope of the embedding.

* Request payload fields are JSON strings or absent (`none` stands for a missing key
  and for `null`, both falsy in the handler's check and both unset for the schema).
* Times are integer milliseconds since the epoch, as `Date` values are.
* `String.prototype.toLowerCase` and the zone offsets of the server's clock are
  parameters (`toLowerCase`, `localTZA`): what is proved holds for every such function.
* The database is reachable and the unique index on `email` declared in the schema is
  built; requests are handled one at a time.
* Closed examples run with `asciiLowerCase` for `toLowerCase`: on their strings, whose
  letters are ASCII, the two agree.
* Requests are the ones that reach line 21: `cors()` only adds headers to them and
  `express.static('.')` has found no file to serve for their path.

Library behaviour. Express, Mongoose and express-rate-limit are dependencies, not part
of the sources. Mongoose's operations are embedded as the schema of lines 30-67
configures them: setters run when a document is built and when a query filter is cast,
validators run in `save()`, the unique index rejects an insert. Express routing is
embedded as path matching on segments, without regard to case. The counting store of
the limiter follows section 4.6 of the specification.
-/

namespace Waitlist

/-! ## Strings -/

/-- Code points that `String.prototype.trim` strips (ECMAScript WhiteSpace and
LineTerminator). -/
def isTrimChar (c : Char) : Bool :=
  let n := c.toNat
  n == 0x09 || n == 0x0A || n == 0x0B || n == 0x0C || n == 0x0D || n == 0x20 ||
  n == 0xA0 || n == 0x1680 || (0x2000 ≤ n && n ≤ 0x200A) || n == 0x2028 ||
  n == 0x2029 || n == 0x202F || n == 0x205F || n == 0x3000 || n == 0xFEFF

/-- The characters of `s.trim()`. -/
def trimChars (cs : List Char) : List Char :=
  ((cs.dropWhile isTrimChar).reverse.dropWhile isTrimChar).reverse

/-- The string `s.trim()`. -/
def jsTrim (s : String) : String := ⟨trimChars s.data⟩

/-- Lowercasing of the ASCII letters `A`-`Z`, every other character kept: the case
folding of Express's route matching, and what `String.prototype.toLowerCase` returns
for a string whose cased letters are all ASCII. -/
def asciiLowerCase (s : String) : String := ⟨s.data.map Char.toLower⟩

/-- Truthiness of a payload field: `!x` holds for a missing key, `null` and `""`. -/
def truthy : Option String → Bool
  | none => false
  | some s => s != ""

/-! ## Schema (`waitlistSchema`, lines 30-67) -/

/-- The `enum` of `farmType` (line 46). -/
def farmTypeEnum : List String :=
  ["vegetable", "fruit", "grain", "livestock", "greenhouse", "urban", "other"]

/-- The `enum` of `farmSize` (line 51). -/
def farmSizeEnum : List String := ["small", "medium", "large", "urban"]

/-- The `enum` of `interests` (line 56). -/
def interestsEnum : List String :=
  ["ai-optimization", "composting", "soil-health", "pest-management",
   "water-management", "yield-prediction", "sustainability"]

/-- The `enum` of `status` (line 64). -/
def statusEnum : List String := ["active", "notified", "converted"]

/-- A stored document of the `Waitlist` model. -/
structure Entry where
  email : String
  name : String
  farmType : String
  farmSize : String
  interests : String
  signupDate : Int
  status : String
  deriving DecidableEq, Repr

/-- The body of `POST /api/waitlist` after `express.json()`:
`const { email, name, farmType, farmSize, interests } = req.body`. -/
structure Payload where
  email : Option String
  name : Option String
  farmType : Option String
  farmSize : Option String
  interests : Option String
  deriving DecidableEq, Repr

/-- The setter that `lowercase: true` installs on a String path:
`if (v) return v.toLowerCase(); return v`. `toLowerCase` is the runtime's
`String.prototype.toLowerCase`, which lowercases every cased letter of Unicode; it is
a parameter of the embedding. -/
def lowercaseSetter (toLowerCase : String → String) (v : String) : String :=
  if v != "" then toLowerCase v else v

/-- The setter that `trim: true` installs on a String path:
`if (v) return v.trim(); return v`. -/
def trimSetter (v : String) : String :=
  if v != "" then jsTrim v else v

/-- Setters of the `email` path: `lowercase: true` then `trim: true`
(lines 35-36). -/
def normalizeEmail (toLowerCase : String → String) (s : String) : String :=
  trimSetter (lowercaseSetter toLowerCase s)

/-- Setter of the `name` path: `trim: true` (line 41). -/
def normalizeName (s : String) : String := trimSetter s

/-- The `required: true` validator of a String path: the value is a string of
non-zero length. -/
def requiredOk (s : String) : Bool := s != ""

/-- The `enum` validator of a String path: the value is one of the listed ones. -/
def enumOk (allowed : List String) (s : String) : Bool := allowed.contains s

/-- The collection, as the list of its documents in insertion order. -/
abbrev Store := List Entry

/-- The document `new Waitlist({ email, name, farmType, farmSize, interests })`
(lines 93-99) for truthy fields: setters applied, `signupDate` defaulted to
`Date.now()` and `status` to `'active'`. -/
def newWaitlist (toLowerCase : String → String)
    (email name farmType farmSize interests : String) (now : Int) : Entry :=
  { email := normalizeEmail toLowerCase email
    name := normalizeName name
    farmType := farmType
    farmSize := farmSize
    interests := interests
    signupDate := now
    status := "active" }

/-- Document validation run by `save()`: the `required` and `enum` validators of the
schema, on the values the setters and defaults produced. -/
def validate (e : Entry) : Bool :=
  requiredOk e.email && requiredOk e.name &&
  requiredOk e.farmType && enumOk farmTypeEnum e.farmType &&
  requiredOk e.farmSize && enumOk farmSizeEnum e.farmSize &&
  requiredOk e.interests && enumOk interestsEnum e.interests &&
  enumOk statusEnum e.status

/-- The query `Waitlist.findOne({ email })`: the filter value is cast through the setters of the
`email` path (Mongoose runs setters on query filters), then matched against the
stored values. -/
def findOne (toLowerCase : String → String) (db : Store) (email : String) : Option Entry :=
  db.find? (fun e => e.email == normalizeEmail toLowerCase email)

/-- Why `save()` threw. -/
inductive SaveError where
  | validation
  | duplicateKey
  deriving DecidableEq, Repr

/-- The call `newEntry.save()`: validation first, then the insert, which the unique index on
`email` (line 34) rejects when a stored document has the same `email`. -/
def save (db : Store) (e : Entry) : Except SaveError Store :=
  if !validate e then .error .validation
  else if db.any (fun d => d.email == e.email) then .error .duplicateKey
  else .ok (db ++ [e])

/-- The count `Waitlist.countDocuments()`. -/
def countDocuments (db : Store) : Nat := db.length

/-! ## Responses -/

/-- One `{ _id, count }` row of an aggregation. -/
structure Group where
  id : String
  count : Nat
  deriving DecidableEq, Repr

/-- Response bodies the application sends. -/
inductive Body where
  | message (message : String)
  | joined (message : String) (position : Nat)
  | stats (totalSignups thisWeek : Nat) (farmTypeStats interestStats : List Group)
  | entries (entries : List Entry)
  | health (status : String) (timestamp : Int)
  | text (text : String)
  | file (name : String)
  | notFound
  deriving DecidableEq, Repr

/-- A response: status code and body. -/
structure Response where
  status : Nat
  body : Body
  deriving DecidableEq, Repr

/-! ## `POST /api/waitlist` (lines 77-112) -/

/-- The handler of `POST /api/waitlist`. The destructured fields (line 79) are
matched first: a field that is not there is falsy in the check of line 82, and the
fields that are there go through the same check. `now` is the clock read by the
`signupDate` default. A throw of `save()` lands in the `catch` (lines 108-111). -/
def postWaitlist (toLowerCase : String → String) (db : Store) (p : Payload) (now : Int) :
    Response × Store :=
  match p.email, p.name, p.farmType, p.farmSize, p.interests with
  | some email, some name, some farmType, some farmSize, some interests =>
    if !truthy (some email) || !truthy (some name) || !truthy (some farmType) ||
        !truthy (some farmSize) || !truthy (some interests) then
      (⟨400, .message "All fields are required"⟩, db)
    else
      match findOne toLowerCase db email with
      | some _ => (⟨400, .message "Email already registered"⟩, db)
      | none =>
        match save db (newWaitlist toLowerCase email name farmType farmSize interests now) with
        | .ok db' =>
          (⟨201, .joined "Successfully joined waitlist!" (countDocuments db')⟩, db')
        | .error _ => (⟨500, .message "Internal server error"⟩, db)
  | _, _, _, _, _ => (⟨400, .message "All fields are required"⟩, db)

/-! ## `GET /api/waitlist/stats` (lines 115-149) -/

/-- Milliseconds per day. -/
def msPerDay : Int := 86400000

/-- The threshold of lines 120-121:
`const oneWeekAgo = new Date(); oneWeekAgo.setDate(oneWeekAgo.getDate() - 7)`.
Here `setDate` works on the local calendar: the time value is taken to
local time, moved back seven calendar days at the same time of day, and taken back
to UTC. `localTZA t isUTC` is the offset of the server's zone (ECMAScript
`LocalTZA`), at the UTC time `t` when `isUTC` and at the local time `t` otherwise. -/
def oneWeekAgo (localTZA : Int → Bool → Int) (now : Int) : Int :=
  let t := now + localTZA now true
  let newDate := t - 7 * msPerDay
  newDate - localTZA newDate false

/-- The count `Waitlist.countDocuments({ signupDate: { $gte: threshold } })`. -/
def countSince (db : Store) (threshold : Int) : Nat :=
  db.countP (fun e => decide (threshold ≤ e.signupDate))

/-- One document entering the `$group` stage: the group of its key gets one more,
a new key opens a group with count 1. -/
def bump (k : String) : List Group → List Group
  | [] => [⟨k, 1⟩]
  | g :: gs => if g.id = k then ⟨g.id, g.count + 1⟩ :: gs else g :: bump k gs

/-- The stage `{ $group: { _id: '$field', count: { $sum: 1 } } }`. -/
def group (field : Entry → String) (db : Store) : List Group :=
  db.foldl (fun acc e => bump (field e) acc) []

/-- The stage `{ $sort: { count: -1 } }`. -/
def sortByCountDesc (gs : List Group) : List Group :=
  gs.insertionSort (fun a b => b.count ≤ a.count)

/-- The pipeline `Waitlist.aggregate([{ $group: ... }, { $sort: { count: -1 } }])`. -/
def aggregate (field : Entry → String) (db : Store) : List Group :=
  sortByCountDesc (group field db)

/-- The handler of `GET /api/waitlist/stats`; all four reads see the store `db`. -/
def getStats (localTZA : Int → Bool → Int) (db : Store) (now : Int) : Response :=
  let totalSignups := countDocuments db
  let thisWeek := countSince db (oneWeekAgo localTZA now)
  let farmTypeStats := aggregate Entry.farmType db
  let interestStats := aggregate Entry.interests db
  ⟨200, .stats totalSignups thisWeek farmTypeStats interestStats⟩

/-- Sum of the `count` fields of an aggregation result. -/
def totalCount (gs : List Group) : Nat := (gs.map Group.count).sum

/-! ## `GET /api/waitlist/entries`, `GET /api/health`, `GET /` -/

/-- The listing `Waitlist.find().sort({ signupDate: -1 })` (line 154). -/
def getEntries (db : Store) : Response :=
  ⟨200, .entries (db.insertionSort (fun a b => b.signupDate ≤ a.signupDate))⟩

/-- The health check (lines 163-165). -/
def getHealth (now : Int) : Response := ⟨200, .health "OK" now⟩

/-- The landing page (lines 72-74). -/
def getRoot : Response := ⟨200, .file "index.html"⟩

/-! ## Rate limiter (lines 16-21) -/

/-- Option `windowMs` (line 17). -/
def windowMs : Int := 15 * 60 * 1000

/-- Option `max` (line 18). -/
def max : Nat := 5

/-- Option `message` (line 19). -/
def limitMessage : String := "Too many requests from this IP, please try again later."

/-- The window of one client: when it opened and the requests counted in it. -/
structure Window where
  start : Int
  hits : Nat
  deriving DecidableEq, Repr

/-- Limiter state: the open window of each client address, if any. -/
abbrev LimiterState := String → Option Window

/-- Modelled from the spec: the counting store of `express-rate-limit`, which is not
part of the sources. Section 4.6: a window of fixed duration per client identity
(IP address), at most `max` requests per client per window, the window reset after
the duration elapses from the first request in the window; every request that
reaches the gate is counted. The options are the ones of lines 17-19. -/
def hit (st : LimiterState) (ip : String) (now : Int) : Window :=
  match st ip with
  | some w => if now < w.start + windowMs then ⟨w.start, w.hits + 1⟩ else ⟨now, 1⟩
  | none => ⟨now, 1⟩

/-- The gate `limiter`: counts the request and tells whether it may pass. -/
def limiter (st : LimiterState) (ip : String) (now : Int) : Bool × LimiterState :=
  let w := hit st ip now
  (decide (w.hits ≤ max), fun k => if k = ip then some w else st k)

/-- The response of the gate to a request over the limit. -/
def tooManyRequests : Response := ⟨429, .text limitMessage⟩

/-! ## The application -/

/-- Request methods that reach the router. -/
inductive Method where
  | GET
  | POST
  | PUT
  | DELETE
  deriving DecidableEq, Repr

/-- A request: method, path split at `/`, client address (`req.ip`), the time at
which it is handled and its parsed body. -/
structure Request where
  method : Method
  path : List String
  ip : String
  time : Int
  body : Payload

/-- State of the process: limiter counters and the collection. -/
structure AppState where
  limiter : LimiterState
  db : Store

/-- A mount `app.use(mount, ...)` matches every path that starts with the segments of
`mount`, whatever the method; Express compares without regard to case. -/
def underMount : List String → List String → Bool
  | [], _ => true
  | _ :: _, [] => false
  | m :: ms, s :: ss => asciiLowerCase s == m && underMount ms ss

/-- The routes `app.get(path, ...)` and `app.post(path, ...)` match the whole path. -/
def atPath (route path : List String) : Bool :=
  path.map asciiLowerCase == route

/-- The routes of lines 72-165; a request that matches none gets Express's 404. -/
def route (toLowerCase : String → String) (localTZA : Int → Bool → Int) (st : AppState)
    (req : Request) :
    Response × AppState :=
  if req.method = .GET && atPath [] req.path then (getRoot, st)
  else if req.method = .POST && atPath ["api", "waitlist"] req.path then
    let r := postWaitlist toLowerCase st.db req.body req.time
    (r.1, { st with db := r.2 })
  else if req.method = .GET && atPath ["api", "waitlist", "stats"] req.path then
    (getStats localTZA st.db req.time, st)
  else if req.method = .GET && atPath ["api", "waitlist", "entries"] req.path then
    (getEntries st.db, st)
  else if req.method = .GET && atPath ["api", "health"] req.path then
    (getHealth req.time, st)
  else (⟨404, .notFound⟩, st)

/-- The application: `app.use('/api/waitlist', limiter)` (line 21) in front of the
routes. -/
def app (toLowerCase : String → String) (localTZA : Int → Bool → Int) (st : AppState)
    (req : Request) :
    Response × AppState :=
  if underMount ["api", "waitlist"] req.path then
    let g := limiter st.limiter req.ip req.time
    if g.1 then route toLowerCase localTZA { st with limiter := g.2 } req
    else (tooManyRequests, { st with limiter := g.2 })
  else route toLowerCase localTZA st req

/-- The application run over a list of requests, in order. -/
def serve (toLowerCase : String → String) (localTZA : Int → Bool → Int) :
    AppState → List Request → List Response × AppState
  | st, [] => ([], st)
  | st, req :: reqs =>
    let r := app toLowerCase localTZA st req
    let rest := serve toLowerCase localTZA r.2 reqs
    (r.1 :: rest.1, rest.2)

/-- One request reaching the gate: the client address and the time. -/
structure Hit where
  ip : String
  time : Int
  deriving DecidableEq, Repr

/-- The limiter state after the gate has seen the requests of `hs`, in order. -/
def feed (st : LimiterState) : List Hit → LimiterState
  | [] => st
  | h :: hs => feed (limiter st h.ip h.time).2 hs

/-- The process right after start: no window open, nothing stored. -/
def initial : AppState := ⟨fun _ => none, []⟩

/-- The request `GET /api/waitlist/stats` from `ip` at `time`. -/
def statsRequest (ip : String) (time : Int) : Request :=
  ⟨.GET, ["api", "waitlist", "stats"], ip, time, ⟨none, none, none, none, none⟩⟩

/-- The request `POST /api/waitlist` from `ip` at `time` with body `p`. -/
def signupRequest (ip : String) (time : Int) (p : Payload) : Request :=
  ⟨.POST, ["api", "waitlist"], ip, time, p⟩

/-- Stores reachable from the empty one through the signup handler. -/
inductive Reachable (toLowerCase : String → String) : Store → Prop where
  | empty : Reachable toLowerCase []
  | signup (db : Store) (p : Payload) (now : Int) :
      Reachable toLowerCase db → Reachable toLowerCase (postWaitlist toLowerCase db p now).2

/-- A server whose zone keeps offset zero (UTC). -/
def utc : Int → Bool → Int := fun _ _ => 0

/-- A zone that puts its clocks one hour forward at UTC time 0: five hours behind UTC
before, four hours behind from then on. As for ECMAScript's `LocalTZA`, a local time
inside the skipped hour takes the offset in force before the change. -/
def springForward (t : Int) (isUTC : Bool) : Int :=
  if isUTC then (if t < 0 then -5 * 3600000 else -4 * 3600000)
  else (if t < -4 * 3600000 then -5 * 3600000 else -4 * 3600000)

/-- The requests of `reqs` that the mount of line 21 sends through the gate, as the
gate sees them. -/
def gateHits (reqs : List Request) : List Hit :=
  (reqs.filter (fun r => underMount ["api", "waitlist"] r.path)).map
    (fun r => ⟨r.ip, r.time⟩)

/-- A payload field that is absent or empty. -/
def absentOrEmpty (o : Option String) : Prop := o = none ∨ o = some ""

/-- Field values that pass the schema: email and name keep at least one character
after their setters, and the three categorical fields are in their enumerations. -/
def accepted (toLowerCase : String → String) (a n ft fs i : String) : Prop :=
  normalizeEmail toLowerCase a ≠ "" ∧ normalizeName n ≠ "" ∧
  ft ∈ farmTypeEnum ∧ fs ∈ farmSizeEnum ∧ i ∈ interestsEnum

/-- The sample payload of the specification. -/
def ann : Payload :=
  ⟨some "a@b.com", some "Ann", some "vegetable", some "small", some "composting"⟩

/-! ## Strings: trimming and lowercasing -/

theorem dropWhile_head_false (p : Char → Bool) :
    ∀ (cs : List Char) (a : Char) (r : List Char), cs.dropWhile p = a :: r → p a = false := by
  intro cs
  induction cs with
  | nil => intro a r h; simp at h
  | cons c cs ih =>
    intro a r h
    by_cases hc : p c = true
    · rw [List.dropWhile_cons_of_pos hc] at h
      exact ih a r h
    · rw [List.dropWhile_cons_of_neg hc] at h
      simp only [List.cons.injEq] at h
      rw [← h.1]
      simpa using hc

theorem trimChars_eq (cs : List Char) :
    trimChars cs = (cs.dropWhile isTrimChar).rdropWhile isTrimChar := rfl

theorem mem_of_mem_trimChars {c : Char} {cs : List Char} (h : c ∈ trimChars cs) : c ∈ cs := by
  rw [trimChars_eq] at h
  exact (List.dropWhile_sublist _).subset
    (List.IsPrefix.subset ( List.rdropWhile_prefix isTrimChar _) h)

theorem trimChars_idem (cs : List Char) : trimChars (trimChars cs) = trimChars cs := by
  have hfix : (trimChars cs).dropWhile isTrimChar = trimChars cs := by
    obtain ⟨t, ht⟩ := List.rdropWhile_prefix isTrimChar (cs.dropWhile isTrimChar)
    rw [← trimChars_eq] at ht
    cases hy : trimChars cs with
    | nil => rfl
    | cons a y =>
      rw [hy] at ht
      have ha : isTrimChar a = false := dropWhile_head_false isTrimChar cs a (y ++ t) ht.symm
      rw [List.dropWhile_cons_of_neg (by simp [ha])]
  rw [trimChars_eq (trimChars cs), hfix, trimChars_eq, List.rdropWhile_idempotent]

theorem toLower_idem (c : Char) : c.toLower.toLower = c.toLower := by
  by_cases h : c.toNat ≥ 65 ∧ c.toNat ≤ 90
  · have hc : c = Char.ofNat c.toNat := (Char.ofNat_toNat c).symm
    obtain ⟨h1, h2⟩ := h
    generalize c.toNat = n at hc h1 h2
    subst hc
    interval_cases n <;> rfl
  · simp [Char.toLower, h]

theorem trimSetter_eq (v : String) : trimSetter v = jsTrim v := by
  unfold trimSetter
  by_cases h : v = ""
  · subst h; decide
  · simp [h]

theorem lowercaseSetter_ascii (s : String) :
    lowercaseSetter asciiLowerCase s = asciiLowerCase s := by
  unfold lowercaseSetter
  by_cases h : s = ""
  · subst h; decide
  · simp [h]

/-- With the ASCII lowercasing the email setters are idempotent. -/
theorem normalizeEmail_ascii_idem (s : String) :
    normalizeEmail asciiLowerCase (normalizeEmail asciiLowerCase s) =
      normalizeEmail asciiLowerCase s := by
  have hlow : (trimChars (s.data.map Char.toLower)).map Char.toLower =
      trimChars (s.data.map Char.toLower) := by
    conv_rhs => rw [← List.map_id (trimChars (s.data.map Char.toLower))]
    apply List.map_congr_left
    intro c hc
    obtain ⟨d, _, hd⟩ := List.mem_map.1 (mem_of_mem_trimChars hc)
    rw [← hd]
    simpa using toLower_idem d
  simp only [normalizeEmail, trimSetter_eq, lowercaseSetter_ascii, jsTrim, asciiLowerCase]
  rw [hlow, trimChars_idem]

theorem normalizeEmail_empty (toLowerCase : String → String) :
    normalizeEmail toLowerCase "" = "" := by
  simp [normalizeEmail, lowercaseSetter, trimSetter]

/-! ## The signup handler, case by case -/

theorem findOne_eq_none_iff {toLowerCase : String → String} (db : Store) (a : String) :
    findOne toLowerCase db a = none ↔ ∀ e ∈ db, e.email ≠ normalizeEmail toLowerCase a := by
  simp [findOne]

theorem findOne_isSome_iff {toLowerCase : String → String} (db : Store) (a : String) :
    (findOne toLowerCase db a).isSome = true ↔ ∃ e ∈ db, e.email = normalizeEmail toLowerCase a := by
  cases h : findOne toLowerCase db a with
  | none =>
    have := (findOne_eq_none_iff db a).1 h
    simp only [Option.isSome_none, Bool.false_eq_true, false_iff, not_exists, not_and]
    exact this
  | some e =>
    have hm := List.mem_of_find?_eq_some h
    have hp := List.find?_some h
    simp only [Option.isSome_some, true_iff]
    exact ⟨e, hm, by simpa using hp⟩

theorem postWaitlist_missing {toLowerCase : String → String} (db : Store) (p : Payload) (now : Int)
    (h : truthy p.email = false ∨ truthy p.name = false ∨ truthy p.farmType = false ∨
      truthy p.farmSize = false ∨ truthy p.interests = false) :
    postWaitlist toLowerCase db p now = (⟨400, .message "All fields are required"⟩, db) := by
  obtain ⟨e, n, ft, fs, i⟩ := p
  cases e <;> cases n <;> cases ft <;> cases fs <;> cases i <;>
    try (simp [postWaitlist]; done)
  simp only [postWaitlist]
  rw [if_pos]
  rcases h with h | h | h | h | h <;> simp [h]

theorem postWaitlist_present {toLowerCase : String → String} (db : Store) (a n ft fs i : String) (now : Int)
    (ha : a ≠ "") (hn : n ≠ "") (hft : ft ≠ "") (hfs : fs ≠ "") (hi : i ≠ "") :
    postWaitlist toLowerCase db ⟨some a, some n, some ft, some fs, some i⟩ now =
      if (findOne toLowerCase db a).isSome then (⟨400, .message "Email already registered"⟩, db)
      else if validate (newWaitlist toLowerCase a n ft fs i now) then
        (⟨201, .joined "Successfully joined waitlist!" (db.length + 1)⟩,
          db ++ [newWaitlist toLowerCase a n ft fs i now])
      else (⟨500, .message "Internal server error"⟩, db) := by
  simp only [postWaitlist, truthy]
  have h0 : (!(a != "") || !(n != "") || !(ft != "") || !(fs != "") || !(i != "")) = false := by
    simp [ha, hn, hft, hfs, hi]
  rw [if_neg (by simp [h0])]
  cases hf : findOne toLowerCase db a with
  | some e => simp
  | none =>
    have hnone := (findOne_eq_none_iff db a).1 hf
    by_cases hv : validate (newWaitlist toLowerCase a n ft fs i now) = true
    · have hany : db.any (fun d => d.email == (newWaitlist toLowerCase a n ft fs i now).email) = false := by
        rw [List.any_eq_false]
        intro e he
        simpa [newWaitlist] using hnone e he
      simp [save, hv, hany, countDocuments]
    · simp [save, hv]

/-- Every run of the handler either leaves the store as it was or appends one
validated document whose email no stored document had, answering 201 with the new
count. -/
theorem postWaitlist_cases {toLowerCase : String → String} (db : Store) (p : Payload) (now : Int) :
    ((postWaitlist toLowerCase db p now).2 = db ∧ (postWaitlist toLowerCase db p now).1.status ≠ 201) ∨
    ∃ a n ft fs i, p = ⟨some a, some n, some ft, some fs, some i⟩ ∧
      validate (newWaitlist toLowerCase a n ft fs i now) = true ∧
      (∀ e ∈ db, e.email ≠ normalizeEmail toLowerCase a) ∧
      postWaitlist toLowerCase db p now =
        (⟨201, .joined "Successfully joined waitlist!" (db.length + 1)⟩,
          db ++ [newWaitlist toLowerCase a n ft fs i now]) := by
  by_cases hm : truthy p.email = false ∨ truthy p.name = false ∨ truthy p.farmType = false ∨
      truthy p.farmSize = false ∨ truthy p.interests = false
  · left
    rw [postWaitlist_missing db p now hm]
    exact ⟨rfl, by simp⟩
  · obtain ⟨e, n, ft, fs, i⟩ := p
    cases e <;> cases n <;> cases ft <;> cases fs <;> cases i <;>
      simp only [truthy, Bool.false_eq_true, or_false, false_or, or_true, true_or,
        not_true_eq_false] at hm
    rename_i a n ft fs i
    simp only [bne_eq_false_iff_eq, not_or] at hm
    obtain ⟨ha, hn, hft, hfs, hi⟩ := hm
    rw [postWaitlist_present db a n ft fs i now ha hn hft hfs hi]
    by_cases hf : (findOne toLowerCase db a).isSome = true
    · left
      rw [if_pos hf]
      exact ⟨rfl, by simp⟩
    · by_cases hv : validate (newWaitlist toLowerCase a n ft fs i now) = true
      · right
        refine ⟨a, n, ft, fs, i, rfl, hv, ?_, ?_⟩
        · apply (findOne_eq_none_iff db a).1
          simpa using hf
        · rw [if_neg hf, if_pos hv]
      · left
        rw [if_neg hf, if_neg hv]
        exact ⟨rfl, by simp⟩

theorem validate_iff (e : Entry) :
    validate e = true ↔
      e.email ≠ "" ∧ e.name ≠ "" ∧ e.farmType ∈ farmTypeEnum ∧ e.farmSize ∈ farmSizeEnum ∧
      e.interests ∈ interestsEnum ∧ e.status ∈ statusEnum := by
  have h1 : ∀ s, s ∈ farmTypeEnum → s ≠ "" := by
    intro s hs h; subst h; revert hs; decide
  have h2 : ∀ s, s ∈ farmSizeEnum → s ≠ "" := by
    intro s hs h; subst h; revert hs; decide
  have h3 : ∀ s, s ∈ interestsEnum → s ≠ "" := by
    intro s hs h; subst h; revert hs; decide
  simp only [validate, requiredOk, enumOk, Bool.and_eq_true, bne_iff_ne, ne_eq,
    List.contains_eq_any_beq, List.any_eq_true, beq_iff_eq, exists_eq_right']
  constructor
  · rintro ⟨⟨⟨⟨⟨⟨⟨⟨a, b⟩, _⟩, c⟩, _⟩, d⟩, _⟩, e⟩, f⟩
    exact ⟨a, b, c, d, e, f⟩
  · rintro ⟨a, b, c, d, e, f⟩
    exact ⟨⟨⟨⟨⟨⟨⟨⟨a, b⟩, h1 _ c⟩, c⟩, h2 _ d⟩, d⟩, h3 _ e⟩, e⟩, f⟩

theorem absentOrEmpty_iff (o : Option String) : absentOrEmpty o ↔ truthy o = false := by
  cases o with
  | none => simp [absentOrEmpty, truthy]
  | some s => simp [absentOrEmpty, truthy]

theorem normalizeName_empty : normalizeName "" = "" := by decide

theorem accepted_validate {toLowerCase : String → String} {a n ft fs i : String} (h : accepted toLowerCase a n ft fs i) (now : Int) :
    a ≠ "" ∧ n ≠ "" ∧ ft ≠ "" ∧ fs ≠ "" ∧ i ≠ "" ∧
    validate (newWaitlist toLowerCase a n ft fs i now) = true := by
  obtain ⟨h1, h2, h3, h4, h5⟩ := h
  have hv : validate (newWaitlist toLowerCase a n ft fs i now) = true :=
    (validate_iff _).2 ⟨h1, h2, h3, h4, h5, (by decide : "active" ∈ statusEnum)⟩
  refine ⟨?_, ?_, ?_, ?_, ?_, hv⟩
  · intro h; exact h1 (h ▸ normalizeEmail_empty toLowerCase)
  · intro h; exact h2 (h ▸ normalizeName_empty)
  · intro h; subst h; revert h3; decide
  · intro h; subst h; revert h4; decide
  · intro h; subst h; revert h5; decide

theorem postWaitlist_accepted {toLowerCase : String → String} (db : Store) (a n ft fs i : String) (now : Int)
    (h : accepted toLowerCase a n ft fs i) (hnew : ∀ e ∈ db, e.email ≠ normalizeEmail toLowerCase a) :
    postWaitlist toLowerCase db ⟨some a, some n, some ft, some fs, some i⟩ now =
      (⟨201, .joined "Successfully joined waitlist!" (db.length + 1)⟩,
        db ++ [newWaitlist toLowerCase a n ft fs i now]) := by
  obtain ⟨ha, hn, hft, hfs, hi, hv⟩ := accepted_validate h now
  rw [postWaitlist_present db a n ft fs i now ha hn hft hfs hi]
  have hf : ¬ (findOne toLowerCase db a).isSome = true := by
    rw [(findOne_eq_none_iff db a).2 hnew]; simp
  rw [if_neg hf, if_pos hv]

theorem postWaitlist_stored {toLowerCase : String → String} (db : Store) (a n ft fs i : String) (now : Int)
    (ha : a ≠ "") (hn : n ≠ "") (hft : ft ≠ "") (hfs : fs ≠ "") (hi : i ≠ "")
    (hold : ∃ e ∈ db, e.email = normalizeEmail toLowerCase a) :
    postWaitlist toLowerCase db ⟨some a, some n, some ft, some fs, some i⟩ now =
      (⟨400, .message "Email already registered"⟩, db) := by
  rw [postWaitlist_present db a n ft fs i now ha hn hft hfs hi,
    if_pos ((findOne_isSome_iff db a).2 hold)]

/-- A payload whose email is already stored never changes the store. -/
theorem postWaitlist_stored_unchanged {toLowerCase : String → String} (db : Store) (p : Payload) (b : String) (now : Int)
    (hb : p.email = some b) (hold : ∃ e ∈ db, e.email = normalizeEmail toLowerCase b) :
    (postWaitlist toLowerCase db p now).2 = db := by
  rcases postWaitlist_cases db p now with h | ⟨a, n, ft, fs, i, hp, _, hnew, _⟩
  · exact h.1
  · rw [hp] at hb
    simp only [Option.some.injEq] at hb
    subst hb
    obtain ⟨e, he, hee⟩ := hold
    exact absurd hee (hnew e he)

theorem postWaitlist_length_le {toLowerCase : String → String} (db : Store) (p : Payload) (now : Int) :
    (postWaitlist toLowerCase db p now).2.length ≤ db.length + 1 := by
  rcases postWaitlist_cases db p now with h | ⟨a, n, ft, fs, i, _, _, _, h⟩
  · rw [h.1]; omega
  · rw [h]; simp

/-- What every reachable store satisfies: stored emails are pairwise different, each
is the normalized form of a submitted email, and every document passed validation with
status `active`. -/
theorem reachable_invariant {toLowerCase : String → String} {db : Store}
    (h : Reachable toLowerCase db) :
    (db.map Entry.email).Nodup ∧
    ∀ e ∈ db, (∃ a, e.email = normalizeEmail toLowerCase a) ∧ validate e = true ∧
      e.status = "active" := by
  induction h with
  | empty => simp
  | signup db p now _ ih =>
    rcases postWaitlist_cases db p now with h | ⟨a, n, ft, fs, i, _, hv, hnew, h⟩
    · rw [h.1]; exact ih
    · rw [h]
      refine ⟨?_, ?_⟩
      · rw [List.map_append, List.nodup_append]
        refine ⟨ih.1, by simp, ?_⟩
        intro x hx hx'
        simp only [List.map_cons, List.map_nil, List.mem_singleton] at hx'
        obtain ⟨e, he, hee⟩ := List.mem_map.1 hx
        apply hnew e he
        rw [hee, hx']
        rfl
      · intro e he
        rcases List.mem_append.1 he with he | he
        · exact ih.2 e he
        · simp only [List.mem_singleton] at he
          subst he
          exact ⟨⟨a, rfl⟩, hv, rfl⟩

/-! ## Signup: duplicates, missing fields, enumerations, position -/

/-- C1 (counterexample): a payload with all five fields present and the three
categorical fields in their enumerations, sent to an empty store, is answered 500 and
not 201 when its email consists of white space only: the `trim` setter empties it and
the `required` validator of `save()` throws. -/
theorem signup_blank_email_not_created :
    "vegetable" ∈ farmTypeEnum ∧ "small" ∈ farmSizeEnum ∧ "composting" ∈ interestsEnum ∧
    findOne asciiLowerCase [] " " = none ∧
    postWaitlist asciiLowerCase []
      ⟨some " ", some "Ann", some "vegetable", some "small", some "composting"⟩ 0 =
      (⟨500, .message "Internal server error"⟩, []) := by
  decide

/-- C1 (amended): for every payload with all five fields present, email and name not
blank after trimming and the categorical fields in their enumerations, and every store
that holds no entry with its normalized email, two submissions in sequence leave
exactly one entry with that email: the first is answered 201, the second is answered
400 "Email already registered" and stores nothing. -/
theorem signup_twice_one_entry (toLowerCase : String → String) (db : Store)
    (a n ft fs i : String) (t1 t2 : Int)
    (h : accepted toLowerCase a n ft fs i)
    (hnew : ∀ e ∈ db, e.email ≠ normalizeEmail toLowerCase a) :
    (postWaitlist toLowerCase db
      ⟨some a, some n, some ft, some fs, some i⟩ t1).1.status = 201 ∧
    postWaitlist toLowerCase
        (postWaitlist toLowerCase db ⟨some a, some n, some ft, some fs, some i⟩ t1).2
        ⟨some a, some n, some ft, some fs, some i⟩ t2 =
      (⟨400, .message "Email already registered"⟩,
        (postWaitlist toLowerCase db ⟨some a, some n, some ft, some fs, some i⟩ t1).2) ∧
    (postWaitlist toLowerCase
        (postWaitlist toLowerCase db ⟨some a, some n, some ft, some fs, some i⟩ t1).2
        ⟨some a, some n, some ft, some fs, some i⟩ t2).2.countP
      (fun e => e.email == normalizeEmail toLowerCase a) = 1 := by
  obtain ⟨ha, hn, hft, hfs, hi, _⟩ := accepted_validate h t1
  have h1 := postWaitlist_accepted db a n ft fs i t1 h hnew
  have h2 := postWaitlist_stored (db ++ [newWaitlist toLowerCase a n ft fs i t1]) a n ft fs i t2
    ha hn hft hfs hi ⟨newWaitlist toLowerCase a n ft fs i t1, by simp, rfl⟩
  rw [h1]
  refine ⟨rfl, h2, ?_⟩
  simp only []
  rw [h2]
  have hz : db.countP (fun e => e.email == normalizeEmail toLowerCase a) = 0 := by
    rw [List.countP_eq_zero]
    intro e he
    simpa using hnew e he
  simp [List.countP_append, hz, newWaitlist]

/-- Witness of `signup_twice_one_entry`: the sample payload on the empty store. -/
theorem signup_twice_one_entry_witness :
    accepted asciiLowerCase "a@b.com" "Ann" "vegetable" "small" "composting" ∧
    (postWaitlist asciiLowerCase [] ann 7).1.status = 201 ∧
    postWaitlist asciiLowerCase (postWaitlist asciiLowerCase [] ann 7).2 ann 9 =
      (⟨400, .message "Email already registered"⟩, (postWaitlist asciiLowerCase [] ann 7).2) ∧
    (postWaitlist asciiLowerCase (postWaitlist asciiLowerCase [] ann 7).2 ann 9).2.countP
      (fun e => e.email == normalizeEmail asciiLowerCase "a@b.com") = 1 :=
  ⟨by unfold accepted; decide,
    signup_twice_one_entry asciiLowerCase [] "a@b.com" "Ann" "vegetable" "small" "composting" 7 9
      (by unfold accepted; decide) (by simp)⟩

theorem underMount_of_atPath {path : List String} (h : atPath ["api", "waitlist"] path = true) :
    underMount ["api", "waitlist"] path = true := by
  rcases path with _ | ⟨s1, _ | ⟨s2, _ | ⟨s3, ss⟩⟩⟩ <;>
    simp [atPath, underMount] at h ⊢
  exact h

theorem route_post {toLowerCase : String → String} (localTZA : Int → Bool → Int) (st : AppState) (req : Request)
    (hm : req.method = .POST) (hp : atPath ["api", "waitlist"] req.path = true) :
    route toLowerCase localTZA st req =
      ((postWaitlist toLowerCase st.db req.body req.time).1,
        { st with db := (postWaitlist toLowerCase st.db req.body req.time).2 }) := by
  have h0 : atPath [] req.path = false := by
    cases hpath : req.path with
    | nil => rw [hpath] at hp; simp [atPath] at hp
    | cons s ss => simp [atPath]
  simp [route, hm, hp, h0]

/-- C2: a payload in which at least one of email, name, farmType, farmSize, interests
is absent or empty is answered 400 "All fields are required" by the signup handler and
the store is returned unchanged; through the application the same request leaves the
store unchanged as well, and is answered by the handler unless the limiter stops it. -/
theorem missing_field_rejected (toLowerCase : String → String) (db : Store) (p : Payload) (now : Int)
    (h : absentOrEmpty p.email ∨ absentOrEmpty p.name ∨ absentOrEmpty p.farmType ∨
      absentOrEmpty p.farmSize ∨ absentOrEmpty p.interests) :
    postWaitlist toLowerCase db p now = (⟨400, .message "All fields are required"⟩, db) ∧
    ∀ (localTZA : Int → Bool → Int) (st : AppState) (req : Request),
      req.method = .POST → atPath ["api", "waitlist"] req.path = true → req.body = p →
      (app toLowerCase localTZA st req).2.db = st.db ∧
      ((app toLowerCase localTZA st req).1 = ⟨400, .message "All fields are required"⟩ ∨
        (app toLowerCase localTZA st req).1 = tooManyRequests) := by
  simp only [absentOrEmpty_iff] at h
  refine ⟨postWaitlist_missing db p now h, ?_⟩
  intro localTZA st req hm hp hb
  subst hb
  simp only [app, underMount_of_atPath hp, if_true]
  by_cases hg : (limiter st.limiter req.ip req.time).1 = true
  · rw [if_pos hg, route_post localTZA _ req hm hp]
    simp [postWaitlist_missing _ req.body req.time h]
  · rw [if_neg hg]
    exact ⟨rfl, Or.inr rfl⟩

/-- Witness of `missing_field_rejected`: the sample payload without its name, sent to
a store that holds one entry. -/
theorem missing_field_rejected_witness :
    absentOrEmpty ({ ann with name := none } : Payload).name ∧
    postWaitlist asciiLowerCase (postWaitlist asciiLowerCase [] ann 7).2 { ann with name := none } 9 =
      (⟨400, .message "All fields are required"⟩, (postWaitlist asciiLowerCase [] ann 7).2) :=
  ⟨Or.inl rfl,
    (missing_field_rejected asciiLowerCase (postWaitlist asciiLowerCase [] ann 7).2 { ann with name := none } 9
      (Or.inr (Or.inl (Or.inl rfl)))).1⟩

/-- C4 (counterexample): a payload with all five fields present and non-empty whose
farmType is outside its enumeration is answered 500 "Internal server error", not 400:
the validation failure of `save()` is caught by the catch-all of the handler. -/
theorem signup_invalid_enum_answers_500 :
    "banana" ∉ farmTypeEnum ∧
    postWaitlist asciiLowerCase []
      ⟨some "a@b.com", some "Ann", some "banana", some "small", some "composting"⟩ 0 =
      (⟨500, .message "Internal server error"⟩, []) := by
  decide

/-- C4 (amended): for every payload in which all five fields are present and non-empty
but farmType, farmSize or interests is not a member of its enumeration, nothing is
stored; the answer is 400 "Email already registered" when the store already holds the
normalized email, and otherwise 500 "Internal server error", the schema's validation
failure being caught by the handler's catch-all. -/
theorem signup_invalid_enum (toLowerCase : String → String) (db : Store) (a n ft fs i : String) (now : Int)
    (ha : a ≠ "") (hn : n ≠ "") (hft : ft ≠ "") (hfs : fs ≠ "") (hi : i ≠ "")
    (hbad : ft ∉ farmTypeEnum ∨ fs ∉ farmSizeEnum ∨ i ∉ interestsEnum) :
    (postWaitlist toLowerCase db ⟨some a, some n, some ft, some fs, some i⟩ now).2 = db ∧
    (postWaitlist toLowerCase db ⟨some a, some n, some ft, some fs, some i⟩ now).1 =
      if (findOne toLowerCase db a).isSome then ⟨400, .message "Email already registered"⟩
      else ⟨500, .message "Internal server error"⟩ := by
  have hv : ¬ validate (newWaitlist toLowerCase a n ft fs i now) = true := by
    intro hv
    obtain ⟨_, _, h3, h4, h5, _⟩ := (validate_iff _).1 hv
    rcases hbad with h | h | h
    · exact h h3
    · exact h h4
    · exact h h5
  rw [postWaitlist_present db a n ft fs i now ha hn hft hfs hi]
  by_cases hf : (findOne toLowerCase db a).isSome = true
  · simp [hf]
  · simp [hf, hv]

/-- Witness of `signup_invalid_enum`: farmSize `huge` sent to a store holding the sample
entry, under a new email. -/
theorem signup_invalid_enum_witness :
    "huge" ∉ farmSizeEnum ∧
    (postWaitlist asciiLowerCase (postWaitlist asciiLowerCase [] ann 7).2
      ⟨some "c@d.org", some "Cy", some "fruit", some "huge", some "composting"⟩ 9).2 =
      (postWaitlist asciiLowerCase [] ann 7).2 ∧
    (postWaitlist asciiLowerCase (postWaitlist asciiLowerCase [] ann 7).2
      ⟨some "c@d.org", some "Cy", some "fruit", some "huge", some "composting"⟩ 9).1 =
      ⟨500, .message "Internal server error"⟩ :=
  ⟨by decide,
    signup_invalid_enum asciiLowerCase (postWaitlist asciiLowerCase [] ann 7).2 "c@d.org" "Cy" "fruit" "huge" "composting" 9
      (by decide) (by decide) (by decide) (by decide) (by decide) (Or.inr (Or.inl (by decide)))⟩

/-- C5: whenever the signup handler answers 201 on a store of n entries, the position
it reports is n + 1, the number of entries of the store right after the insert
(1 on the empty store); and it does answer 201 for every payload the schema accepts
whose normalized email is not stored yet. -/
theorem position_is_count_after_insert (toLowerCase : String → String) (db : Store) (p : Payload) (now : Int) :
    ((postWaitlist toLowerCase db p now).1.status = 201 →
      (postWaitlist toLowerCase db p now).1.body =
        .joined "Successfully joined waitlist!" (db.length + 1) ∧
      countDocuments (postWaitlist toLowerCase db p now).2 = db.length + 1) ∧
    (∀ a n ft fs i, p = ⟨some a, some n, some ft, some fs, some i⟩ →
      accepted toLowerCase a n ft fs i → (∀ e ∈ db, e.email ≠ normalizeEmail toLowerCase a) →
      (postWaitlist toLowerCase db p now).1.status = 201) := by
  constructor
  · intro h
    rcases postWaitlist_cases db p now with h' | ⟨a, n, ft, fs, i, _, _, _, h'⟩
    · exact absurd h h'.2
    · rw [h']
      simp [countDocuments]
  · intro a n ft fs i hp hacc hnew
    rw [hp, postWaitlist_accepted db a n ft fs i now hacc hnew]

/-- Witness of `position_is_count_after_insert`: the sample payload on the empty store
is answered 201 with position 1, and a second, different email then gets position 2. -/
theorem position_is_count_after_insert_witness :
    (postWaitlist asciiLowerCase [] ann 7).1 = ⟨201, .joined "Successfully joined waitlist!" 1⟩ ∧
    (postWaitlist asciiLowerCase (postWaitlist asciiLowerCase [] ann 7).2 { ann with email := some "c@d.org" } 9).1.body =
      .joined "Successfully joined waitlist!" ((postWaitlist asciiLowerCase [] ann 7).2.length + 1) ∧
    countDocuments
      (postWaitlist asciiLowerCase (postWaitlist asciiLowerCase [] ann 7).2 { ann with email := some "c@d.org" } 9).2 =
      (postWaitlist asciiLowerCase [] ann 7).2.length + 1 :=
  ⟨by decide,
    (position_is_count_after_insert asciiLowerCase (postWaitlist asciiLowerCase [] ann 7).2
      { ann with email := some "c@d.org" } 9).1 (by decide)⟩

/-! ## Email identity and the shape of stored entries -/

/-- C3: emails are identified by their normalized form (lowercased by the runtime's
`toLowerCase`, trimmed). Two payloads the schema accepts whose emails have the same
normalized form, sent in sequence to a store without that email: the first is stored
and the second answered 400 "Email already registered". For any two payloads with such
emails at most one of the two submissions stores an entry. In every store reachable
through signups each entry stores the normalized form of the email it was submitted
with and no two entries store the same one; where normalizing a normalized email
changes nothing, the stored emails normalized once more are pairwise different too. -/
theorem normalized_email_identity (toLowerCase : String → String) :
    (∀ (db : Store) (a n ft fs i b n' ft' fs' i' : String) (t1 t2 : Int),
      accepted toLowerCase a n ft fs i → accepted toLowerCase b n' ft' fs' i' →
      normalizeEmail toLowerCase a = normalizeEmail toLowerCase b →
      (∀ e ∈ db, e.email ≠ normalizeEmail toLowerCase a) →
      postWaitlist toLowerCase db ⟨some a, some n, some ft, some fs, some i⟩ t1 =
        (⟨201, .joined "Successfully joined waitlist!" (db.length + 1)⟩,
          db ++ [newWaitlist toLowerCase a n ft fs i t1]) ∧
      postWaitlist toLowerCase (db ++ [newWaitlist toLowerCase a n ft fs i t1])
          ⟨some b, some n', some ft', some fs', some i'⟩ t2 =
        (⟨400, .message "Email already registered"⟩,
          db ++ [newWaitlist toLowerCase a n ft fs i t1])) ∧
    (∀ (db : Store) (p q : Payload) (a b : String) (t1 t2 : Int),
      p.email = some a → q.email = some b →
      normalizeEmail toLowerCase a = normalizeEmail toLowerCase b →
      ((postWaitlist toLowerCase db p t1).2 = db ∨
        (postWaitlist toLowerCase (postWaitlist toLowerCase db p t1).2 q t2).2 =
          (postWaitlist toLowerCase db p t1).2) ∧
      (postWaitlist toLowerCase (postWaitlist toLowerCase db p t1).2 q t2).2.length ≤
        db.length + 1) ∧
    (∀ db : Store, Reachable toLowerCase db →
      (db.map Entry.email).Nodup ∧
      (∀ e ∈ db, ∃ a, e.email = normalizeEmail toLowerCase a) ∧
      ((∀ s, normalizeEmail toLowerCase (normalizeEmail toLowerCase s) =
          normalizeEmail toLowerCase s) →
        (db.map (fun e => normalizeEmail toLowerCase e.email)).Nodup)) := by
  refine ⟨?_, ?_, ?_⟩
  · intro db a n ft fs i b n' ft' fs' i' t1 t2 hp hq hab hnew
    obtain ⟨hb, hn', hft', hfs', hi', _⟩ := accepted_validate hq t2
    refine ⟨postWaitlist_accepted db a n ft fs i t1 hp hnew, ?_⟩
    apply postWaitlist_stored _ b n' ft' fs' i' t2 hb hn' hft' hfs' hi'
    exact ⟨newWaitlist toLowerCase a n ft fs i t1, by simp, hab⟩
  · intro db p q a b t1 t2 hpa hqb hab
    rcases postWaitlist_cases db p t1 with h | ⟨a', n, ft, fs, i, hp, _, _, h⟩
    · refine ⟨Or.inl h.1, ?_⟩
      rw [h.1]
      exact postWaitlist_length_le db q t2
    · have ha' : a' = a := by
        rw [hp] at hpa
        simpa using hpa
      subst ha'
      have hsame : (postWaitlist toLowerCase (postWaitlist toLowerCase db p t1).2 q t2).2 =
          (postWaitlist toLowerCase db p t1).2 := by
        apply postWaitlist_stored_unchanged _ q b t2 hqb
        rw [h]
        exact ⟨newWaitlist toLowerCase a' n ft fs i t1, by simp, hab⟩
      refine ⟨Or.inr hsame, ?_⟩
      rw [hsame, h]
      simp
  · intro db hdb
    obtain ⟨hnodup, hinv⟩ := reachable_invariant hdb
    refine ⟨hnodup, fun e he => (hinv e he).1, ?_⟩
    intro hidem
    have hmap : db.map (fun e => normalizeEmail toLowerCase e.email) = db.map Entry.email := by
      apply List.map_congr_left
      intro e he
      obtain ⟨a, ha⟩ := (hinv e he).1
      rw [ha]
      exact hidem a
    rw [hmap]
    exact hnodup

/-- Witness of `normalized_email_identity`: `User@Example.com ` (with a trailing blank)
and `user@example.com` on the empty store, their letters being ASCII. -/
theorem normalized_email_identity_witness :
    normalizeEmail asciiLowerCase "User@Example.com " =
      normalizeEmail asciiLowerCase "user@example.com" ∧
    (postWaitlist asciiLowerCase []
        ⟨some "User@Example.com ", some "Ann", some "vegetable", some "small",
          some "composting"⟩ 7 =
      (⟨201, .joined "Successfully joined waitlist!" 1⟩,
        [newWaitlist asciiLowerCase "User@Example.com " "Ann" "vegetable" "small"
          "composting" 7]) ∧
    postWaitlist asciiLowerCase
        [newWaitlist asciiLowerCase "User@Example.com " "Ann" "vegetable" "small"
          "composting" 7]
        ⟨some "user@example.com", some "Bo", some "fruit", some "large",
          some "soil-health"⟩ 9 =
      (⟨400, .message "Email already registered"⟩,
        [newWaitlist asciiLowerCase "User@Example.com " "Ann" "vegetable" "small"
          "composting" 7])) ∧
    ((postWaitlist asciiLowerCase [] ann 7).2.map Entry.email).Nodup ∧
    ((postWaitlist asciiLowerCase [] ann 7).2.map
      (fun e => normalizeEmail asciiLowerCase e.email)).Nodup :=
  ⟨by decide,
    (normalized_email_identity asciiLowerCase).1 [] "User@Example.com " "Ann" "vegetable"
      "small" "composting" "user@example.com" "Bo" "fruit" "large" "soil-health" 7 9
      (by unfold accepted; decide) (by unfold accepted; decide) (by decide) (by simp),
    ((normalized_email_identity asciiLowerCase).2.2 _
      (Reachable.signup [] ann 7 Reachable.empty)).1,
    ((normalized_email_identity asciiLowerCase).2.2 _
      (Reachable.signup [] ann 7 Reachable.empty)).2.2 normalizeEmail_ascii_idem⟩

/-- C10: in every store reachable from the empty one through the signup handler, every
entry has email, name, farmType, farmSize and interests populated, the three
categorical fields in their enumerations, and a status of the status enumeration,
namely `active`, the value set on creation. -/
theorem reachable_entries_well_formed (toLowerCase : String → String) (db : Store) (h : Reachable toLowerCase db) :
    ∀ e ∈ db, e.email ≠ "" ∧ e.name ≠ "" ∧ e.farmType ≠ "" ∧ e.farmSize ≠ "" ∧
      e.interests ≠ "" ∧ e.farmType ∈ farmTypeEnum ∧ e.farmSize ∈ farmSizeEnum ∧
      e.interests ∈ interestsEnum ∧ e.status ∈ statusEnum ∧ e.status = "active" := by
  intro e he
  obtain ⟨_, hv, hs⟩ := (reachable_invariant h).2 e he
  obtain ⟨h1, h2, h3, h4, h5, h6⟩ := (validate_iff e).1 hv
  refine ⟨h1, h2, ?_, ?_, ?_, h3, h4, h5, h6, hs⟩
  · intro h; rw [h] at h3; revert h3; decide
  · intro h; rw [h] at h4; revert h4; decide
  · intro h; rw [h] at h5; revert h5; decide

/-- Witness of `reachable_entries_well_formed`: the store after the sample signup and a
second one, which holds two entries. -/
theorem reachable_entries_well_formed_witness :
    (postWaitlist asciiLowerCase (postWaitlist asciiLowerCase [] ann 7).2 { ann with email := some "c@d.org" } 9).2.length = 2 ∧
    ∀ e ∈ (postWaitlist asciiLowerCase (postWaitlist asciiLowerCase [] ann 7).2 { ann with email := some "c@d.org" } 9).2,
      e.email ≠ "" ∧ e.name ≠ "" ∧ e.farmType ≠ "" ∧ e.farmSize ≠ "" ∧
      e.interests ≠ "" ∧ e.farmType ∈ farmTypeEnum ∧ e.farmSize ∈ farmSizeEnum ∧
      e.interests ∈ interestsEnum ∧ e.status ∈ statusEnum ∧ e.status = "active" :=
  ⟨by decide,
    reachable_entries_well_formed asciiLowerCase _
      (Reachable.signup _ { ann with email := some "c@d.org" } 9
        (Reachable.signup [] ann 7 Reachable.empty))⟩

/-! ## Statistics -/

theorem totalCount_bump (k : String) (gs : List Group) :
    totalCount (bump k gs) = totalCount gs + 1 := by
  induction gs with
  | nil => simp [bump, totalCount]
  | cons g gs ih =>
    simp only [bump]
    split
    · simp only [totalCount, List.map_cons, List.sum_cons]; omega
    · simp only [totalCount, List.map_cons, List.sum_cons] at ih ⊢; omega

theorem totalCount_foldl (field : Entry → String) (db : Store) (acc : List Group) :
    totalCount (db.foldl (fun acc e => bump (field e) acc) acc) = totalCount acc + db.length := by
  induction db generalizing acc with
  | nil => simp
  | cons e db ih =>
    simp only [List.foldl_cons, List.length_cons]
    rw [ih, totalCount_bump]; omega

theorem sortByCountDesc_perm (gs : List Group) : (sortByCountDesc gs).Perm gs :=
  List.perm_insertionSort _ gs

theorem totalCount_aggregate (field : Entry → String) (db : Store) :
    totalCount (aggregate field db) = db.length := by
  have hp := ((sortByCountDesc_perm (group field db)).map Group.count).sum_eq
  simp only [aggregate, totalCount]
  rw [hp]
  have := totalCount_foldl field db []
  simpa [totalCount, group] using this

theorem ids_bump (k : String) (gs : List Group) :
    (bump k gs).map Group.id =
      if k ∈ gs.map Group.id then gs.map Group.id else gs.map Group.id ++ [k] := by
  induction gs with
  | nil => simp [bump]
  | cons g gs ih =>
    simp only [bump]
    by_cases hg : g.id = k
    · simp [hg]
    · have hk : ¬ k = g.id := fun h => hg h.symm
      rw [if_neg hg, List.map_cons, ih]
      by_cases hm : k ∈ gs.map Group.id
      · simp [hm]
      · simp [hm, hk]

theorem ids_foldl (field : Entry → String) (db : Store) (acc : List Group)
    (hacc : (acc.map Group.id).Nodup) :
    ((db.foldl (fun acc e => bump (field e) acc) acc).map Group.id).Nodup ∧
    (∀ k ∈ acc.map Group.id, k ∈ (db.foldl (fun acc e => bump (field e) acc) acc).map Group.id) ∧
    ∀ e ∈ db, field e ∈ (db.foldl (fun acc e => bump (field e) acc) acc).map Group.id := by
  induction db generalizing acc with
  | nil => exact ⟨hacc, fun k hk => hk, by simp⟩
  | cons e db ih =>
    have hn : ((bump (field e) acc).map Group.id).Nodup := by
      rw [ids_bump]
      split
      · exact hacc
      · rename_i hk
        rw [List.nodup_append]
        refine ⟨hacc, by simp, ?_⟩
        intro x hx hx'
        simp only [List.mem_singleton] at hx'
        exact hk (hx' ▸ hx)
    have hsub : ∀ k ∈ acc.map Group.id, k ∈ (bump (field e) acc).map Group.id := by
      intro k hk
      rw [ids_bump]
      split
      · exact hk
      · exact List.mem_append_left _ hk
    have hin : field e ∈ (bump (field e) acc).map Group.id := by
      rw [ids_bump]
      split
      · assumption
      · simp
    obtain ⟨h1, h2, h3⟩ := ih (bump (field e) acc) hn
    simp only [List.foldl_cons]
    refine ⟨h1, fun k hk => h2 k (hsub k hk), ?_⟩
    intro x hx
    rcases List.mem_cons.1 hx with hx | hx
    · subst hx; exact h2 _ hin
    · exact h3 x hx

theorem aggregate_unique_group (field : Entry → String) (db : Store) :
    ∀ e ∈ db, ∃! g, g ∈ aggregate field db ∧ g.id = field e := by
  obtain ⟨hn, _, hmem⟩ := ids_foldl field db [] (by simp)
  have hperm := sortByCountDesc_perm (group field db)
  have hn' : ((aggregate field db).map Group.id).Nodup :=
    ((hperm.map Group.id).nodup_iff).2 hn
  intro e he
  obtain ⟨g, hg, hge⟩ := List.mem_map.1 (hmem e he)
  have hg' : g ∈ aggregate field db := hperm.mem_iff.2 hg
  refine ⟨g, ⟨hg', hge⟩, ?_⟩
  rintro g' ⟨hg'', hge'⟩
  exact List.inj_on_of_nodup_map hn' hg'' hg' (hge'.trans hge.symm)

theorem countFor_bump (k k' : String) (gs : List Group) :
    (((bump k gs).filter (fun g => g.id == k')).map Group.count).sum =
      ((gs.filter (fun g => g.id == k')).map Group.count).sum + if k = k' then 1 else 0 := by
  induction gs with
  | nil =>
    by_cases h : k = k' <;> simp [bump, List.filter_cons, h]
  | cons g gs ih =>
    simp only [bump]
    by_cases hg : g.id = k
    · by_cases h : k = k'
      · have hg' : g.id = k' := hg.trans h
        simp [List.filter_cons, hg, h, hg']
        omega
      · have hg' : ¬ g.id = k' := fun h' => h (hg.symm.trans h')
        simp [List.filter_cons, hg, h, hg']
    · rw [if_neg hg]
      by_cases hk : g.id = k'
      · simp only [List.filter_cons, hk, beq_self_eq_true, if_true, List.map_cons,
          List.sum_cons]
        rw [ih]; omega
      · simp only [List.filter_cons, beq_iff_eq, hk, if_false]
        exact ih

theorem countFor_foldl (field : Entry → String) (k : String) (db : Store) (acc : List Group) :
    ((((db.foldl (fun acc e => bump (field e) acc) acc)).filter
        (fun g => g.id == k)).map Group.count).sum =
      ((acc.filter (fun g => g.id == k)).map Group.count).sum +
        db.countP (fun e => field e == k) := by
  induction db generalizing acc with
  | nil => simp
  | cons e db ih =>
    simp only [List.foldl_cons]
    rw [ih, countFor_bump, List.countP_cons]
    by_cases h : field e = k
    · simp [h]; omega
    · simp [h]

theorem countFor_of_nodup (gs : List Group) (hn : (gs.map Group.id).Nodup) :
    ∀ g ∈ gs, ((gs.filter (fun x => x.id == g.id)).map Group.count).sum = g.count := by
  induction gs with
  | nil => simp
  | cons h t ih =>
    simp only [List.map_cons, List.nodup_cons] at hn
    obtain ⟨hnot, hnt⟩ := hn
    have hrest : ∀ x ∈ t, ¬ x.id = h.id := fun x hx hxe =>
      hnot (hxe ▸ List.mem_map_of_mem Group.id hx)
    intro g hg
    rcases List.mem_cons.1 hg with hg | hg
    · subst hg
      have hempty : t.filter (fun x => x.id == g.id) = [] := by
        rw [List.filter_eq_nil_iff]
        intro x hx
        simpa using hrest x hx
      simp [List.filter_cons, hempty]
    · have hne : ¬ h.id = g.id := fun hh => hrest g hg hh.symm
      simp only [List.filter_cons, beq_iff_eq, hne, if_false]
      exact ih hnt g hg

theorem aggregate_count (field : Entry → String) (db : Store) :
    ∀ g ∈ aggregate field db, g.count = db.countP (fun e => field e == g.id) := by
  intro g hg
  have hg' : g ∈ group field db := (sortByCountDesc_perm (group field db)).mem_iff.1 hg
  obtain ⟨hn, _, _⟩ := ids_foldl field db [] (by simp)
  have h1 := countFor_of_nodup (group field db) hn g hg'
  have h2 := countFor_foldl field g.id db []
  simp only [List.filter_nil, List.map_nil, List.sum_nil, Nat.zero_add] at h2
  rw [← h1]
  exact h2

/-- C8: the stats handler reports the count of all entries as `totalSignups`, and the
counts of `farmTypeStats` add up to it, as do the counts of `interestStats`; every
entry has its one group in each of the two groupings, and the count of a group is the
number of entries with the group's value. -/
theorem stats_counts_sum_to_total (localTZA : Int → Bool → Int) (db : Store) (now : Int) :
    getStats localTZA db now =
      ⟨200, .stats (countDocuments db) (countSince db (oneWeekAgo localTZA now))
        (aggregate Entry.farmType db) (aggregate Entry.interests db)⟩ ∧
    totalCount (aggregate Entry.farmType db) = countDocuments db ∧
    totalCount (aggregate Entry.interests db) = countDocuments db ∧
    (∀ e ∈ db, ∃! g, g ∈ aggregate Entry.farmType db ∧ g.id = e.farmType) ∧
    (∀ e ∈ db, ∃! g, g ∈ aggregate Entry.interests db ∧ g.id = e.interests) ∧
    (∀ g ∈ aggregate Entry.farmType db, g.count = db.countP (fun e => e.farmType == g.id)) ∧
    (∀ g ∈ aggregate Entry.interests db, g.count = db.countP (fun e => e.interests == g.id)) :=
  ⟨rfl, totalCount_aggregate _ db, totalCount_aggregate _ db,
    aggregate_unique_group _ db, aggregate_unique_group _ db,
    aggregate_count _ db, aggregate_count _ db⟩

/-- C9 (counterexample): in a zone whose clocks went one hour forward during the last
seven days the threshold is `now` minus 7 days plus one hour, and an entry dated exactly
`now` minus 7 days, which is at or after `now` minus 7 days, is not counted. -/
theorem this_week_misses_entry_in_clock_change_week :
    oneWeekAgo springForward (3 * msPerDay) = 3 * msPerDay - 7 * msPerDay + 3600000 ∧
    3 * msPerDay - 7 * msPerDay ≤
      ({ newWaitlist asciiLowerCase "a@b.com" "Ann" "fruit" "small" "composting" 0 with
        signupDate := 3 * msPerDay - 7 * msPerDay } : Entry).signupDate ∧
    getStats springForward
        [{ newWaitlist asciiLowerCase "a@b.com" "Ann" "fruit" "small" "composting" 0 with
          signupDate := 3 * msPerDay - 7 * msPerDay }] (3 * msPerDay) =
      ⟨200, .stats 1 0 [⟨"fruit", 1⟩] [⟨"composting", 1⟩]⟩ := by
  decide

/-- C9 (amended): `thisWeek` is the number of entries whose signupDate is at or after
the threshold, computed once per call by setting the local calendar date of `now` back
by seven days: `now` minus 7 days, plus the difference between the zone offset at `now`
and the one at the resulting local time, a day being 86400000 ms. The threshold is
`now` minus 7 days where the two offsets are equal. Where they differ by less than a day, an entry dated 8 days
before `now` is not counted and one dated 1 day before `now` is counted. -/
theorem this_week_threshold (localTZA : Int → Bool → Int) (db : Store) (now : Int) :
    getStats localTZA db now =
      ⟨200, .stats db.length
        (db.countP (fun e => decide (oneWeekAgo localTZA now ≤ e.signupDate)))
        (aggregate Entry.farmType db) (aggregate Entry.interests db)⟩ ∧
    oneWeekAgo localTZA now =
      now - 7 * msPerDay +
        (localTZA now true - localTZA (now + localTZA now true - 7 * msPerDay) false) ∧
    (localTZA (now + localTZA now true - 7 * msPerDay) false = localTZA now true →
      oneWeekAgo localTZA now = now - 7 * msPerDay) ∧
    (|localTZA now true - localTZA (now + localTZA now true - 7 * msPerDay) false|
        < msPerDay →
      (∀ (e : Entry) (pre post : Store), e.signupDate = now - 8 * msPerDay →
        countSince (pre ++ e :: post) (oneWeekAgo localTZA now) =
          countSince (pre ++ post) (oneWeekAgo localTZA now)) ∧
      (∀ (e : Entry) (pre post : Store), e.signupDate = now - 1 * msPerDay →
        countSince (pre ++ e :: post) (oneWeekAgo localTZA now) =
          countSince (pre ++ post) (oneWeekAgo localTZA now) + 1)) ∧
    7 * msPerDay = 604800000 := by
  have hday : msPerDay = 86400000 := rfl
  refine ⟨rfl, ?_, ?_, ?_, by decide⟩
  · simp only [oneWeekAgo]; ring
  · intro h
    simp only [oneWeekAgo]
    rw [h]; ring
  · intro hshift
    have hlt := (abs_lt.1 hshift).1
    have hgt := (abs_lt.1 hshift).2
    refine ⟨?_, ?_⟩
    · intro e pre post he
      have hno : ¬ oneWeekAgo localTZA now ≤ e.signupDate := by
        rw [he]
        simp only [oneWeekAgo]
        omega
      simp [countSince, List.countP_append, List.countP_cons, hno]
    · intro e pre post he
      have hyes : oneWeekAgo localTZA now ≤ e.signupDate := by
        rw [he]
        simp only [oneWeekAgo]
        omega
      simp [countSince, List.countP_append, List.countP_cons, hyes]
      omega

/-- Witness of `this_week_threshold`: in the zone of `springForward`, three days after
the clocks changed, the offsets differ by one hour; an entry dated 8 days before `now`
is not counted and one dated 1 day before is. On UTC the threshold is `now` minus 7
days. -/
theorem this_week_threshold_witness :
    oneWeekAgo utc (10 * msPerDay) = 10 * msPerDay - 7 * msPerDay ∧
    |springForward (3 * msPerDay) true -
        springForward (3 * msPerDay + springForward (3 * msPerDay) true - 7 * msPerDay) false|
      < msPerDay ∧
    countSince [{ newWaitlist asciiLowerCase "a@b.com" "Ann" "fruit" "small" "composting" 0 with
        signupDate := 3 * msPerDay - 8 * msPerDay }] (oneWeekAgo springForward (3 * msPerDay)) =
      countSince [] (oneWeekAgo springForward (3 * msPerDay)) ∧
    countSince [{ newWaitlist asciiLowerCase "c@d.org" "Cy" "fruit" "small" "composting" 0 with
        signupDate := 3 * msPerDay - 1 * msPerDay }] (oneWeekAgo springForward (3 * msPerDay)) =
      countSince [] (oneWeekAgo springForward (3 * msPerDay)) + 1 :=
  ⟨(this_week_threshold utc [] (10 * msPerDay)).2.2.1 rfl,
    by decide,
    ((this_week_threshold springForward [] (3 * msPerDay)).2.2.2.1 (by decide)).1 _ [] [] rfl,
    ((this_week_threshold springForward [] (3 * msPerDay)).2.2.2.1 (by decide)).2 _ [] [] rfl⟩

/-! ## Rate limiter -/

theorem postWaitlist_status {toLowerCase : String → String} (db : Store) (p : Payload) (now : Int) :
    (postWaitlist toLowerCase db p now).1.status = 400 ∨ (postWaitlist toLowerCase db p now).1.status = 201 ∨
    (postWaitlist toLowerCase db p now).1.status = 500 := by
  by_cases hm : truthy p.email = false ∨ truthy p.name = false ∨ truthy p.farmType = false ∨
      truthy p.farmSize = false ∨ truthy p.interests = false
  · rw [postWaitlist_missing db p now hm]; exact Or.inl rfl
  · obtain ⟨e, n, ft, fs, i⟩ := p
    cases e <;> cases n <;> cases ft <;> cases fs <;> cases i <;>
      simp only [truthy, Bool.false_eq_true, or_false, false_or, or_true, true_or,
        not_true_eq_false] at hm
    rename_i a n ft fs i
    simp only [bne_eq_false_iff_eq, not_or] at hm
    obtain ⟨ha, hn, hft, hfs, hi⟩ := hm
    rw [postWaitlist_present db a n ft fs i now ha hn hft hfs hi]
    split
    · exact Or.inl rfl
    · split
      · exact Or.inr (Or.inl rfl)
      · exact Or.inr (Or.inr rfl)

theorem route_status_ne_429 {toLowerCase : String → String} (localTZA : Int → Bool → Int) (st : AppState) (req : Request) :
    (route toLowerCase localTZA st req).1.status ≠ 429 := by
  unfold route
  split_ifs
  · simp [getRoot]
  · rcases @postWaitlist_status toLowerCase st.db req.body req.time with h | h | h <;> simp [h]
  · simp [getStats]
  · simp [getEntries]
  · simp [getHealth]
  · simp

theorem route_limiter {toLowerCase : String → String} (localTZA : Int → Bool → Int) (st : AppState) (req : Request) :
    (route toLowerCase localTZA st req).2.limiter = st.limiter := by
  unfold route
  split_ifs <;> rfl

theorem limiter_other (st : LimiterState) (ip k : String) (t : Int) (h : k ≠ ip) :
    (limiter st ip t).2 k = st k := by
  simp [limiter, h]

theorem limiter_self (st : LimiterState) (ip : String) (t : Int) :
    (limiter st ip t).2 ip = some (hit st ip t) := by
  simp [limiter]

theorem feed_append (st : LimiterState) (hs hs' : List Hit) :
    feed st (hs ++ hs') = feed (feed st hs) hs' := by
  induction hs generalizing st with
  | nil => rfl
  | cons h hs ih => simp only [List.cons_append, feed]; exact ih _

theorem feed_other (st : LimiterState) (c : String) (hs : List Hit)
    (h : ∀ x ∈ hs, x.ip ≠ c) : feed st hs c = st c := by
  induction hs generalizing st with
  | nil => rfl
  | cons x hs ih =>
    simp only [feed]
    rw [ih _ (fun y hy => h y (List.mem_cons_of_mem _ hy))]
    exact limiter_other st x.ip c x.time (fun hc => h x (List.mem_cons_self _ _) hc.symm)

/-- Inside an open window every request of the client adds one to its count and
requests of other clients add nothing. -/
theorem feed_in_window (st : LimiterState) (c : String) (t1 : Int) (m : Nat) (hs : List Hit)
    (hst : st c = some ⟨t1, m⟩)
    (hin : ∀ x ∈ hs, x.ip = c → x.time < t1 + windowMs) :
    feed st hs c = some ⟨t1, m + hs.countP (fun x => x.ip == c)⟩ := by
  induction hs generalizing st m with
  | nil => simpa [feed] using hst
  | cons x hs ih =>
    simp only [feed]
    by_cases hx : x.ip = c
    · have hlt : x.time < t1 + windowMs := hin x (List.mem_cons_self _ _) hx
      have hst' : (limiter st x.ip x.time).2 c = some ⟨t1, m + 1⟩ := by
        rw [hx, limiter_self]
        simp [hit, hst, hlt]
      rw [ih _ (m + 1) hst' (fun y hy => hin y (List.mem_cons_of_mem _ hy))]
      simp only [List.countP_cons, hx, beq_self_eq_true, if_true]
      congr 2
      omega
    · have hst' : (limiter st x.ip x.time).2 c = some ⟨t1, m⟩ := by
        rw [limiter_other st x.ip c x.time (fun hc => hx hc.symm)]
        exact hst
      rw [ih _ m hst' (fun y hy => hin y (List.mem_cons_of_mem _ hy))]
      simp [List.countP_cons, hx]

/-- C6 (counterexample): six `GET /api/waitlist/stats` requests of one client within
the window: the first five are answered 200, the sixth 429; and after five such
requests the client's first signup is answered 429 and stores nothing. The stats
requests are counted against the quota. -/
theorem stats_requests_are_rate_limited :
    (serve asciiLowerCase utc initial (List.replicate 6 (statsRequest "10.0.0.1" 0))).1.map Response.status =
      [200, 200, 200, 200, 200, 429] ∧
    (app asciiLowerCase utc (serve asciiLowerCase utc initial (List.replicate 5 (statsRequest "10.0.0.1" 0))).2
        (signupRequest "10.0.0.1" 1 ann)).1 = tooManyRequests ∧
    (app asciiLowerCase utc (serve asciiLowerCase utc initial (List.replicate 5 (statsRequest "10.0.0.1" 0))).2
        (signupRequest "10.0.0.1" 1 ann)).2.db = [] := by
  decide

/-- C6 (amended): the limiter is mounted on the path prefix `/api/waitlist`, for every
method. A request whose path is `/api/waitlist` or lies under it (the signup route, and
also `GET /api/waitlist/stats` and `GET /api/waitlist/entries`) is counted in its
client's window and answered 429 exactly when that count exceeds 5. A request to a
path outside the prefix (`GET /api/health`, `GET /`) is not counted and never answered
429. -/
theorem limiter_gates_waitlist_mount (toLowerCase : String → String) (localTZA : Int → Bool → Int) (st : AppState)
    (req : Request) :
    (underMount ["api", "waitlist"] req.path = true →
      (app toLowerCase localTZA st req).2.limiter req.ip = some (hit st.limiter req.ip req.time) ∧
      ((app toLowerCase localTZA st req).1.status = 429 ↔ max < (hit st.limiter req.ip req.time).hits)) ∧
    (underMount ["api", "waitlist"] req.path = false →
      (app toLowerCase localTZA st req).2.limiter = st.limiter ∧
      (app toLowerCase localTZA st req).1.status ≠ 429) ∧
    underMount ["api", "waitlist"] ["api", "waitlist"] = true ∧
    underMount ["api", "waitlist"] ["api", "waitlist", "stats"] = true ∧
    underMount ["api", "waitlist"] ["api", "waitlist", "entries"] = true ∧
    underMount ["api", "waitlist"] ["api", "health"] = false ∧
    underMount ["api", "waitlist"] [] = false := by
  refine ⟨?_, ?_, by decide, by decide, by decide, by decide, by decide⟩
  · intro hu
    simp only [app, hu, if_true]
    by_cases hg : (limiter st.limiter req.ip req.time).1 = true
    · rw [if_pos hg]
      refine ⟨?_, ?_⟩
      · rw [route_limiter]
        exact limiter_self _ _ _
      · have hle : (hit st.limiter req.ip req.time).hits ≤ max := by
          simpa [limiter] using hg
        constructor
        · intro h; exact absurd h (route_status_ne_429 _ _ _)
        · intro h; omega
    · rw [if_neg hg]
      refine ⟨limiter_self _ _ _, ?_⟩
      have hlt : max < (hit st.limiter req.ip req.time).hits := by
        simpa [limiter] using hg
      exact ⟨fun _ => hlt, fun _ => rfl⟩
  · intro hu
    simp only [app, hu, Bool.false_eq_true, if_false]
    exact ⟨route_limiter _ _ _, route_status_ne_429 _ _ _⟩

/-- Witness of `limiter_gates_waitlist_mount`: after five stats requests of a client, a
sixth stats request is its sixth hit and is answered 429, while a health check is
answered 200 and leaves the count at five. -/
theorem limiter_gates_waitlist_mount_witness :
    (app asciiLowerCase utc (serve asciiLowerCase utc initial (List.replicate 5 (statsRequest "10.0.0.1" 0))).2
        (statsRequest "10.0.0.1" 1)).1.status = 429 ∧
    (app asciiLowerCase utc (serve asciiLowerCase utc initial (List.replicate 5 (statsRequest "10.0.0.1" 0))).2
        ⟨.GET, ["api", "health"], "10.0.0.1", 1, ⟨none, none, none, none, none⟩⟩).1.status
      ≠ 429 ∧
    (app asciiLowerCase utc (serve asciiLowerCase utc initial (List.replicate 5 (statsRequest "10.0.0.1" 0))).2
        ⟨.GET, ["api", "health"], "10.0.0.1", 1, ⟨none, none, none, none, none⟩⟩).2.limiter
      = (serve asciiLowerCase utc initial (List.replicate 5 (statsRequest "10.0.0.1" 0))).2.limiter :=
  ⟨((limiter_gates_waitlist_mount asciiLowerCase utc
      (serve asciiLowerCase utc initial (List.replicate 5 (statsRequest "10.0.0.1" 0))).2
      (statsRequest "10.0.0.1" 1)).1 (by decide)).2.2 (by decide),
    ((limiter_gates_waitlist_mount asciiLowerCase utc
      (serve asciiLowerCase utc initial (List.replicate 5 (statsRequest "10.0.0.1" 0))).2
      ⟨.GET, ["api", "health"], "10.0.0.1", 1, ⟨none, none, none, none, none⟩⟩).2.1
        (by decide)).2,
    ((limiter_gates_waitlist_mount asciiLowerCase utc
      (serve asciiLowerCase utc initial (List.replicate 5 (statsRequest "10.0.0.1" 0))).2
      ⟨.GET, ["api", "health"], "10.0.0.1", 1, ⟨none, none, none, none, none⟩⟩).2.1
        (by decide)).1⟩

/-- The window of one client at the gate: opened by a request at `t1`, it lets the
client's requests through while they are at most five, and a request at or after
`t1 + windowMs` opens the next window. -/
theorem limiter_window (st : LimiterState) (c : String) (t1 : Int) (pre rest : List Hit)
    (hfresh : ∀ w, st c = some w → w.start + windowMs ≤ t1)
    (hpre : ∀ x ∈ pre, x.ip ≠ c)
    (hrest : ∀ x ∈ rest, x.ip = c → x.time < t1 + windowMs) :
    (limiter (feed st pre) c t1).1 = true ∧
    (∀ t, t < t1 + windowMs →
      ((limiter (feed st (pre ++ ⟨c, t1⟩ :: rest)) c t).1 = true ↔
        rest.countP (fun x => x.ip == c) + 2 ≤ 5)) ∧
    (∀ t, t1 + windowMs ≤ t →
      (limiter (feed st (pre ++ ⟨c, t1⟩ :: rest)) c t).1 = true) := by
  have hpre' : feed st pre c = st c := feed_other st c pre hpre
  have hopen : (limiter (feed st pre) c t1).2 c = some ⟨t1, 1⟩ := by
    rw [limiter_self]
    simp only [hit, hpre']
    cases hw : st c with
    | none => rfl
    | some w =>
      have := hfresh w hw
      have hnot : ¬ t1 < w.start + windowMs := by omega
      simp [hnot]
  have hstate : feed st (pre ++ ⟨c, t1⟩ :: rest) c =
      some ⟨t1, 1 + rest.countP (fun x => x.ip == c)⟩ := by
    rw [feed_append]
    simp only [feed]
    exact feed_in_window _ c t1 1 rest hopen hrest
  refine ⟨?_, ?_, ?_⟩
  · have h1 : (hit (feed st pre) c t1).hits = 1 := by
      have := hopen
      rw [limiter_self] at this
      simp only [Option.some.injEq] at this
      rw [this]
    simp [limiter, h1, max]
  · intro t ht
    simp only [limiter, hit, hstate, ht, if_true, max, decide_eq_true_eq]
    omega
  · intro t ht
    have hnot : ¬ t < t1 + windowMs := by omega
    simp [limiter, hit, hstate, hnot, max]

theorem gateHits_cons (r : Request) (rs : List Request) :
    gateHits (r :: rs) =
      if underMount ["api", "waitlist"] r.path then ⟨r.ip, r.time⟩ :: gateHits rs
      else gateHits rs := by
  by_cases h : underMount ["api", "waitlist"] r.path = true <;>
    simp [gateHits, List.filter_cons, h]

theorem gateHits_append (rs rs' : List Request) :
    gateHits (rs ++ rs') = gateHits rs ++ gateHits rs' := by
  simp [gateHits]

theorem mem_gateHits {x : Hit} {rs : List Request} (h : x ∈ gateHits rs) :
    ∃ r ∈ rs, underMount ["api", "waitlist"] r.path = true ∧ x = ⟨r.ip, r.time⟩ := by
  simp only [gateHits, List.mem_map, List.mem_filter] at h
  obtain ⟨r, ⟨hr, hu⟩, hx⟩ := h
  exact ⟨r, hr, hu, hx.symm⟩

theorem countP_gateHits (c : String) (rs : List Request) :
    (gateHits rs).countP (fun x => x.ip == c) =
      rs.countP (fun r => underMount ["api", "waitlist"] r.path && r.ip == c) := by
  induction rs with
  | nil => rfl
  | cons r rs ih =>
    rw [gateHits_cons]
    by_cases h : underMount ["api", "waitlist"] r.path = true
    · by_cases hc : r.ip = c <;> simp [h, hc, List.countP_cons, ih]
    · simp [h, List.countP_cons, ih]

theorem app_limiter (toLowerCase : String → String) (localTZA : Int → Bool → Int)
    (st : AppState) (req : Request) :
    (app toLowerCase localTZA st req).2.limiter = feed st.limiter (gateHits [req]) := by
  rw [gateHits_cons]
  by_cases h : underMount ["api", "waitlist"] req.path = true
  · simp only [app, h, if_true]
    by_cases hg : (limiter st.limiter req.ip req.time).1 = true
    · rw [if_pos hg, route_limiter]; rfl
    · rw [if_neg hg]; rfl
  · simp only [app, h, Bool.false_eq_true, if_false]
    rw [route_limiter]; rfl

theorem serve_limiter (toLowerCase : String → String) (localTZA : Int → Bool → Int)
    (st : AppState) (reqs : List Request) :
    (serve toLowerCase localTZA st reqs).2.limiter = feed st.limiter (gateHits reqs) := by
  induction reqs generalizing st with
  | nil => rfl
  | cons r rs ih =>
    simp only [serve]
    rw [ih, app_limiter]
    rw [show r :: rs = [r] ++ rs from rfl, gateHits_append, feed_append]

theorem app_of_gate (toLowerCase : String → String) (localTZA : Int → Bool → Int)
    (s : AppState) (req : Request) (hu : underMount ["api", "waitlist"] req.path = true) :
    ((limiter s.limiter req.ip req.time).1 = false →
      app toLowerCase localTZA s req =
        (⟨429, .text "Too many requests from this IP, please try again later."⟩,
          { s with limiter := (limiter s.limiter req.ip req.time).2 })) ∧
    ((limiter s.limiter req.ip req.time).1 = true →
      app toLowerCase localTZA s req =
        route toLowerCase localTZA
          { s with limiter := (limiter s.limiter req.ip req.time).2 } req) := by
  constructor
  · intro hg
    simp [app, hu, hg, tooManyRequests, limitMessage]
  · intro hg
    simp [app, hu, hg]

/-- C7 (counterexample): a client that has sent three `GET /api/waitlist/stats`
requests in the window gets its third signup request answered 429, although it is only
the third signup request of the window. -/
theorem third_signup_limited_after_stats :
    (serve asciiLowerCase utc initial
      [statsRequest "10.0.0.1" 0, statsRequest "10.0.0.1" 1, statsRequest "10.0.0.1" 2,
        signupRequest "10.0.0.1" 3 ann,
        signupRequest "10.0.0.1" 4 { ann with email := some "c@d.org" },
        signupRequest "10.0.0.1" 5 { ann with email := some "e@f.net" }]).1 =
      [getStats utc [] 0, getStats utc [] 1, getStats utc [] 2,
        ⟨201, .joined "Successfully joined waitlist!" 1⟩,
        ⟨201, .joined "Successfully joined waitlist!" 2⟩,
        ⟨429, .text "Too many requests from this IP, please try again later."⟩] := by
  decide

/-- C7 (amended): the quota of a client is counted over all its requests under
`/api/waitlist`, signup, stats and entries requests alike. For a client `c` whose
window opens with such a request at `t1` (no window of `c` is open at `t1`), whatever
other clients send before and in between: the opening request passes the gate; a later
request of `c` under the prefix and inside the window passes when it is at most the
5th of `c` in the window and is answered by its route, a signup by the handler on
validation alone; from the 6th on it is answered 429 with the fixed message and
nothing is stored; a request of `c` at or after `t1 + windowMs`, 15 minutes after the
opening request, passes again. A
request of one client leaves the window of every other client as it was. -/
theorem rate_limit_window (toLowerCase : String → String) (localTZA : Int → Bool → Int)
    (st : AppState) (c : String) (t1 : Int) (first : Request) (pre rest : List Request)
    (hfresh : ∀ w, st.limiter c = some w → w.start + windowMs ≤ t1)
    (hpre : ∀ r ∈ pre, underMount ["api", "waitlist"] r.path = true → r.ip ≠ c)
    (hfirst : underMount ["api", "waitlist"] first.path = true ∧ first.ip = c ∧
      first.time = t1)
    (hrest : ∀ r ∈ rest, underMount ["api", "waitlist"] r.path = true → r.ip = c →
      r.time < t1 + windowMs) :
    (app toLowerCase localTZA (serve toLowerCase localTZA st pre).2 first).1.status ≠ 429 ∧
    (∀ req : Request, underMount ["api", "waitlist"] req.path = true → req.ip = c →
      req.time < t1 + windowMs →
      (rest.countP (fun r => underMount ["api", "waitlist"] r.path && r.ip == c) + 2 ≤ 5 →
        app toLowerCase localTZA (serve toLowerCase localTZA st (pre ++ first :: rest)).2 req =
          route toLowerCase localTZA
            { (serve toLowerCase localTZA st (pre ++ first :: rest)).2 with
              limiter := (limiter (serve toLowerCase localTZA st (pre ++ first :: rest)).2.limiter
                req.ip req.time).2 } req) ∧
      (5 < rest.countP (fun r => underMount ["api", "waitlist"] r.path && r.ip == c) + 2 →
        (app toLowerCase localTZA
            (serve toLowerCase localTZA st (pre ++ first :: rest)).2 req).1 =
          ⟨429, .text "Too many requests from this IP, please try again later."⟩ ∧
        (app toLowerCase localTZA
            (serve toLowerCase localTZA st (pre ++ first :: rest)).2 req).2.db =
          (serve toLowerCase localTZA st (pre ++ first :: rest)).2.db)) ∧
    (∀ req : Request, underMount ["api", "waitlist"] req.path = true → req.ip = c →
      t1 + windowMs ≤ req.time →
      app toLowerCase localTZA (serve toLowerCase localTZA st (pre ++ first :: rest)).2 req =
        route toLowerCase localTZA
          { (serve toLowerCase localTZA st (pre ++ first :: rest)).2 with
            limiter := (limiter (serve toLowerCase localTZA st (pre ++ first :: rest)).2.limiter
              req.ip req.time).2 } req) ∧
    (∀ (s : AppState) (ip : String) (t : Int) (p : Payload),
      underMount ["api", "waitlist"] (signupRequest ip t p).path = true ∧
      route toLowerCase localTZA s (signupRequest ip t p) =
        ((postWaitlist toLowerCase s.db p t).1,
          { s with db := (postWaitlist toLowerCase s.db p t).2 })) ∧
    (∀ (s : AppState) (req : Request), req.ip ≠ c →
      (app toLowerCase localTZA s req).2.limiter c = s.limiter c) ∧
    windowMs = 900000 := by
  obtain ⟨hfu, hfip, hft⟩ := hfirst
  have hpre' : ∀ x ∈ gateHits pre, x.ip ≠ c := by
    intro x hx
    obtain ⟨r, hr, hu, rfl⟩ := mem_gateHits hx
    exact hpre r hr hu
  have hrest' : ∀ x ∈ gateHits rest, x.ip = c → x.time < t1 + windowMs := by
    intro x hx hc
    obtain ⟨r, hr, hu, rfl⟩ := mem_gateHits hx
    exact hrest r hr hu hc
  have hhits : gateHits (pre ++ first :: rest) = gateHits pre ++ ⟨c, t1⟩ :: gateHits rest := by
    rw [gateHits_append, gateHits_cons, if_pos hfu, hfip, hft]
  obtain ⟨hw1, hw2, hw3⟩ := limiter_window st.limiter c t1 (gateHits pre) (gateHits rest)
    hfresh hpre' hrest'
  rw [countP_gateHits] at hw2
  refine ⟨?_, ?_, ?_, ?_, ?_, by decide⟩
  · have hg : (limiter (serve toLowerCase localTZA st pre).2.limiter first.ip first.time).1
        = true := by
      rw [serve_limiter, hfip, hft]; exact hw1
    rw [(app_of_gate toLowerCase localTZA _ first hfu).2 hg]
    exact route_status_ne_429 _ _ _
  · intro req hu hip ht
    constructor
    · intro hk
      apply (app_of_gate toLowerCase localTZA _ req hu).2
      rw [serve_limiter, hhits, hip]
      exact (hw2 req.time ht).2 hk
    · intro hk
      have hg : (limiter (serve toLowerCase localTZA st (pre ++ first :: rest)).2.limiter
          req.ip req.time).1 = false := by
        rw [serve_limiter, hhits, hip, Bool.eq_false_iff]
        intro h
        have := (hw2 req.time ht).1 h
        omega
      rw [(app_of_gate toLowerCase localTZA _ req hu).1 hg]
      exact ⟨rfl, rfl⟩
  · intro req hu hip ht
    apply (app_of_gate toLowerCase localTZA _ req hu).2
    rw [serve_limiter, hhits, hip]
    exact hw3 req.time ht
  · intro s ip t p
    have hp : atPath ["api", "waitlist"] (signupRequest ip t p).path = true := by
      simp only [signupRequest]; decide
    exact ⟨underMount_of_atPath hp, route_post localTZA s (signupRequest ip t p) rfl hp⟩
  · intro s req hip
    rw [app_limiter, gateHits_cons]
    split
    · simp only [feed]
      exact limiter_other s.limiter req.ip c req.time (fun h => hip h.symm)
    · rfl

/-- Witness of `rate_limit_window`: client `10.0.0.1` opens its window at time 0 with a
stats request and sends a signup, two stats requests and a listing request in it, with
requests of `10.0.0.2` before and in between; its next signup, at time 6, is its sixth
request in the window and is answered 429, and a signup at time 900000 is answered by
the handler. -/
theorem rate_limit_window_witness :
    (app asciiLowerCase utc
      (serve asciiLowerCase utc initial
        ([statsRequest "10.0.0.2" 0] ++ statsRequest "10.0.0.1" 0 ::
          [signupRequest "10.0.0.1" 1 ann, statsRequest "10.0.0.2" 2,
            statsRequest "10.0.0.1" 3, statsRequest "10.0.0.1" 4,
            ⟨.GET, ["api", "waitlist", "entries"], "10.0.0.1", 5,
              ⟨none, none, none, none, none⟩⟩])).2
      (signupRequest "10.0.0.1" 6 { ann with email := some "c@d.org" })).1 =
      ⟨429, .text "Too many requests from this IP, please try again later."⟩ ∧
    (app asciiLowerCase utc
      (serve asciiLowerCase utc initial
        ([statsRequest "10.0.0.2" 0] ++ statsRequest "10.0.0.1" 0 ::
          [signupRequest "10.0.0.1" 1 ann, statsRequest "10.0.0.2" 2,
            statsRequest "10.0.0.1" 3, statsRequest "10.0.0.1" 4,
            ⟨.GET, ["api", "waitlist", "entries"], "10.0.0.1", 5,
              ⟨none, none, none, none, none⟩⟩])).2
      (signupRequest "10.0.0.1" 900000 { ann with email := some "c@d.org" })).1 =
      ⟨201, .joined "Successfully joined waitlist!" 2⟩ :=
  have h := rate_limit_window asciiLowerCase utc initial "10.0.0.1" 0
    (statsRequest "10.0.0.1" 0) [statsRequest "10.0.0.2" 0]
    [signupRequest "10.0.0.1" 1 ann, statsRequest "10.0.0.2" 2,
      statsRequest "10.0.0.1" 3, statsRequest "10.0.0.1" 4,
      ⟨.GET, ["api", "waitlist", "entries"], "10.0.0.1", 5, ⟨none, none, none, none, none⟩⟩]
    (by intro w h; simp [initial] at h) (by decide) (by decide) (by decide)
  ⟨((h.2.1 (signupRequest "10.0.0.1" 6 { ann with email := some "c@d.org" })
      (by decide) rfl (by decide)).2 (by decide)).1,
    (congrArg Prod.fst
      (h.2.2.1 (signupRequest "10.0.0.1" 900000 { ann with email := some "c@d.org" })
        (by decide) rfl (by decide))).trans (by decide)⟩

end Waitlist
